import Mathlib

/-!
# Verification of the Contessa Coup engine

Shallow embedding of the `contessa` crate (files `src/lib.rs`, `src/engine.rs`,
`src/agent.rs`) in Lean 4, together with theorems settling the spec claims.

Modelling conventions:

* Rust `f64` probabilities, cutoffs and counts are embedded as `ℚ` (exact
  arithmetic).  Every formula the code computes (`compute_hands`, the cutoff
  comparisons, `mutate`) is translated term-for-term; only the carrier changes
  from binary floating point to rationals.
* Rust `usize` indices become `Nat`; `u8` coin counters become `Nat` (no claim
  under scrutiny depends on 8-bit wraparound, and reachable coin counts stay
  far below 256 because a player with 10 or more coins may only Coup).
* The global `rand` source is made explicit: the shuffled deck is a parameter
  of `Engine.new`, the `random()` coin flips inside `lose_influence` and the
  uniform choice inside `select_action` are fields of an `Oracle` record, and
  the noise drawn by `mutate` is passed as rational arguments.
* Rust panics (out-of-bounds indexing, `Option::unwrap` on `None`) are
  modelled by `Option`: a function that can panic returns `Option _`, and
  `Option.none` marks the panic.  Inside branches that the control flow of the
  source makes panic-free (an index produced by an enumerating loop, a lookup
  guarded by a sentinel test) we use total lookups (`List.getD`) exactly where
  the source indexes directly.
* `lib.rs` declares the concrete `Player` struct that `engine.rs` links
  against, and `agent.rs` duplicates it as `Agent` adding the `utilities`
  field.  All methods that exist in both files are textually identical, so a
  single `Player` structure carrying `utilities` models both.
-/

namespace Contessa

/-- Source `Card`: the six-valued card enum from `lib.rs` (five characters plus the
`None` sentinel for a lost influence slot). -/
inductive Card where
  | duke
  | captain
  | ambassador
  | assassin
  | contessa
  | none
deriving DecidableEq, Repr

/-- Source `Action`: the action enum from `lib.rs`; `coup`, `assassinate` and `steal`
carry the target player's index. -/
inductive Action where
  | income
  | foreignAid
  | coup (target : Nat)
  | tax
  | assassinate (target : Nat)
  | exchange
  | steal (target : Nat)
  | pass
deriving DecidableEq, Repr

/-- Source `PerceivedHand` (`lib.rs`): the hash map from the five real card types to
an estimated probability, one field per key the code inserts. -/
structure PerceivedHand where
  duke : ℚ
  captain : ℚ
  ambassador : ℚ
  assassin : ℚ
  contessa : ℚ
deriving DecidableEq, Repr

/-- Source `PerceivedHand::new` builds the all-zero map; it is also the value a
defaulted out-of-range lookup yields in our embedding. -/
def PerceivedHand.new : PerceivedHand := ⟨0, 0, 0, 0, 0⟩

instance : Inhabited PerceivedHand := ⟨PerceivedHand.new⟩

/-- Source `PerceivedHand::get` on a real card returns the stored probability.  The
source unwraps the `HashMap` lookup, which panics on `Card::None`; every call
site first rules the sentinel out (`check_challenge` tests it explicitly, the
other callers pass card literals), so the sentinel branch below is
unreachable and we return `0` there. -/
def PerceivedHand.get (h : PerceivedHand) : Card → ℚ
  | Card.duke => h.duke
  | Card.captain => h.captain
  | Card.ambassador => h.ambassador
  | Card.assassin => h.assassin
  | Card.contessa => h.contessa
  | Card.none => 0

/-- Source `ActionUtilities`: the seven per-action weights.  The struct's fields are
fixed by the initializers in `main.rs`; its `impl` block is not under `src/`. -/
structure ActionUtilities where
  income : ℚ
  foreignaid : ℚ
  coup : ℚ
  tax : ℚ
  assassinate : ℚ
  exchange : ℚ
  steal : ℚ
deriving DecidableEq, Repr

/-- Modelled from the spec: `ActionUtilities::mutate` is code of this
repository that is not under `src/` (only `agent.rs` calls it).  The spec
says each of the 7 utility weights is "perturbed by independent uniform noise
in [0, +0.1)"; the noise values are passed as the seven fields of `n`, each
constrained to `[0, 1/10)` at the use sites. -/
def ActionUtilities.mutate (u n : ActionUtilities) : ActionUtilities :=
  { income := u.income + n.income
    foreignaid := u.foreignaid + n.foreignaid
    coup := u.coup + n.coup
    tax := u.tax + n.tax
    assassinate := u.assassinate + n.assassinate
    exchange := u.exchange + n.exchange
    steal := u.steal + n.steal }

/-- The `Player` struct of `lib.rs` / the `Agent` struct of `agent.rs` (the
latter adds the `utilities` field; all shared methods are identical in the two
files).  The two-slot hand array `[Card; 2]` is a pair. -/
structure Player where
  id : Nat
  hand : Card × Card
  coins : Nat
  liarCutoff : ℚ
  lyingCutoff : ℚ
  utilities : ActionUtilities
  opponents : Nat
  perceivedHands : List PerceivedHand
deriving DecidableEq, Repr

instance : Inhabited Player :=
  ⟨{ id := 0, hand := (Card.none, Card.none), coins := 0, liarCutoff := 0,
     lyingCutoff := 0, utilities := ⟨0, 0, 0, 0, 0, 0, 0⟩, opponents := 0,
     perceivedHands := [] }⟩

/-- Source `Player::check`: `self.hand.contains(&card)`. -/
def Player.check (p : Player) (card : Card) : Bool :=
  p.hand.1 = card ∨ p.hand.2 = card

/-- Source `Player::replace`: overwrite slot 0 if it equals `current`, otherwise
overwrite slot 1 — unconditionally. -/
def Player.replace (p : Player) (current new : Card) : Player :=
  if p.hand.1 = current then { p with hand := (new, p.hand.2) }
  else { p with hand := (p.hand.1, new) }

/-- Source `Player::deal`. -/
def Player.deal (p : Player) (hand : Card × Card) : Player :=
  { p with hand := hand }

/-- Source `Player::get_coins`. -/
def Player.getCoins (p : Player) : Nat := p.coins

/-- Source `Player::gain_coins`. -/
def Player.gainCoins (p : Player) (coins : Nat) : Player :=
  { p with coins := p.coins + coins }

/-- Source `Player::lose_coins`: clamp at the available balance and report the amount
actually removed. -/
def Player.loseCoins (p : Player) (coins : Nat) : Player × Nat :=
  if coins ≤ p.coins then ({ p with coins := p.coins - coins }, coins)
  else ({ p with coins := 0 }, p.coins)

/-- Source `Player::is_eliminated`: both hand slots are the sentinel. -/
def Player.isEliminated (p : Player) : Bool :=
  p.hand.1 = Card.none ∧ p.hand.2 = Card.none

/-- Source `Player::lose_influence`.  The `random()` tie-break between two live slots
is the explicit boolean `r` (`true` picks slot 1, as in the source). -/
def Player.loseInfluence (p : Player) (r : Bool) : Player × Card :=
  let lost : Nat :=
    if p.hand.1 = Card.none ∧ p.hand.2 ≠ Card.none then 1
    else if p.hand.2 = Card.none ∧ p.hand.1 ≠ Card.none then 0
    else if r then 1 else 0
  if lost = 0 then ({ p with hand := (Card.none, p.hand.2) }, p.hand.1)
  else ({ p with hand := (p.hand.1, Card.none) }, p.hand.2)

/-- Source `Player::check_challenge`: never challenge the sentinel claim or while
eliminated; otherwise challenge iff the perceived probability that
`activePlayer` holds `card` is below `liar_cutoff`.  The source indexes
`perceived_hands[active_player]`; `getD` stands in for the index (out of range
would panic in Rust and cannot occur in the engine flow, where
`compute_hands` has filled slots `0..=opponents`). -/
def Player.checkChallenge (p : Player) (activePlayer : Nat) (card : Card) : Bool :=
  if card = Card.none then false
  else if p.isEliminated then false
  else ((p.perceivedHands.getD activePlayer default).get card) < p.liarCutoff

/-- Source `Player::check_block` (`agent.rs` lines 248–277, identical in `lib.rs`).
Note the Assassinate arm: the probability tested is Contessa's, but the card
returned is `Card::Duke` — this is what the source says. -/
def Player.checkBlock (p : Player) (action : Action) : Bool × Card :=
  if p.isEliminated then (false, Card.none)
  else
    match action with
    | Action.foreignAid =>
        (p.lyingCutoff < (p.perceivedHands.getD p.id default).duke, Card.duke)
    | Action.assassinate i =>
        (i = p.id ∧ p.lyingCutoff < (p.perceivedHands.getD p.id default).contessa,
          Card.duke)
    | Action.steal i =>
        if i ≠ p.id then (false, Card.none)
        else
          let captain := (p.perceivedHands.getD p.id default).captain
          let ambassador := (p.perceivedHands.getD p.id default).ambassador
          if ambassador < captain then (p.lyingCutoff < captain, Card.captain)
          else (p.lyingCutoff < ambassador, Card.ambassador)
    | _ => (false, Card.none)

/-- The belief formula of `compute_hands`:
`1 - ((N-k)/N) * (N-1-k) / (N-1)`, the probability that a two-card hand drawn
from a pool of `n` unseen cards containing `k` copies holds at least one. -/
def probAtLeastOne (k n : ℚ) : ℚ :=
  1 - ((n - k) / n) * (n - 1 - k) / (n - 1)

/-- Count of card `c` left in the counts map after removing the kill ledger:
`3 - killed.count c`.  (The source's `todo!()` for a sentinel in the ledger is
unreachable: the engine only pushes non-sentinel cards.) -/
def killCount (killed : List Card) (c : Card) : ℚ :=
  3 - (killed.count c : ℚ)

/-- Source `Player::compute_hands` (identical in `lib.rs` and `agent.rs`): build the
private pool (ledger and own two cards removed) and the public pool (ledger
only), apply the belief formula to each of the five card types, and fill
`perceived_hands[0..=opponents]` with the public-pool estimate at the
observer's own index and the private-pool estimate elsewhere.  A sentinel in a
hand slot is absent from the counts map, so it decrements no count, but
`available` still drops by 2 unconditionally, as in the source. -/
def Player.computeHands (p : Player) (killed : List Card) : Player :=
  let available : ℚ := 15 - (killed.length : ℚ) - 2
  let publicAvailable : ℚ := 15 - (killed.length : ℚ)
  let handCount : Card → ℚ := fun c =>
    (if p.hand.1 = c then 1 else 0) + (if p.hand.2 = c then 1 else 0)
  let counts : Card → ℚ := fun c => killCount killed c - handCount c
  let aPriori : PerceivedHand :=
    ⟨probAtLeastOne (counts Card.duke) available,
     probAtLeastOne (counts Card.captain) available,
     probAtLeastOne (counts Card.ambassador) available,
     probAtLeastOne (counts Card.assassin) available,
     probAtLeastOne (counts Card.contessa) available⟩
  let myHand : PerceivedHand :=
    ⟨probAtLeastOne (killCount killed Card.duke) publicAvailable,
     probAtLeastOne (killCount killed Card.captain) publicAvailable,
     probAtLeastOne (killCount killed Card.ambassador) publicAvailable,
     probAtLeastOne (killCount killed Card.assassin) publicAvailable,
     probAtLeastOne (killCount killed Card.contessa) publicAvailable⟩
  { p with perceivedHands :=
      (List.range (p.opponents + 1)).map fun i =>
        if i = p.id then myHand else aPriori }

/-- The target loop shared by the Coup/Steal/Assassinate arms of
`get_available_actions`: every index `0..=opponents` that is neither self nor
eliminated, in ascending order. -/
def Player.targets (p : Player) (eliminatedPlayers : List Nat) : List Nat :=
  (List.range (p.opponents + 1)).filter fun i => i ≠ p.id ∧ i ∉ eliminatedPlayers

/-- Source `get_available_actions` (identical in `lib.rs` and `agent.rs`): Pass when
eliminated; forced Coups at 10 coins; otherwise Income, ForeignAid, Coup at 7
coins, the card-backed actions, then the bluff variants gated by the
self-perceived probability exceeding `lying_cutoff`. -/
def Player.getAvailableActions (p : Player) (eliminatedPlayers : List Nat) :
    List Action :=
  if p.isEliminated then [Action.pass]
  else if 10 ≤ p.coins then (p.targets eliminatedPlayers).map Action.coup
  else
    let selfHand := p.perceivedHands.getD p.id default
    [Action.income, Action.foreignAid]
    ++ (if 7 ≤ p.coins then (p.targets eliminatedPlayers).map Action.coup else [])
    ++ (if p.check Card.duke then [Action.tax] else [])
    ++ (if p.check Card.captain then
          (p.targets eliminatedPlayers).map Action.steal else [])
    ++ (if p.check Card.ambassador then [Action.exchange] else [])
    ++ (if p.check Card.assassin ∧ 3 ≤ p.coins then
          (p.targets eliminatedPlayers).map Action.assassinate else [])
    ++ (if ¬p.check Card.duke ∧ p.lyingCutoff < selfHand.duke then
          [Action.tax] else [])
    ++ (if ¬p.check Card.captain ∧ p.lyingCutoff < selfHand.captain then
          (p.targets eliminatedPlayers).map Action.steal else [])
    ++ (if ¬p.check Card.ambassador ∧ p.lyingCutoff < selfHand.ambassador then
          [Action.exchange] else [])
    ++ (if ¬p.check Card.assassin ∧ p.lyingCutoff < selfHand.assassin ∧ 3 ≤ p.coins
        then (p.targets eliminatedPlayers).map Action.assassinate else [])

/-- Source `Player::select_action` of `lib.rs` (the implementation `engine.rs` links
against): a uniformly random element of the available list, modelled by the
oracle index `idx` taken modulo the length.  `choose` on an empty list yields
`None` and the source unwraps it, so the empty case is the panic. -/
def Player.selectAction (p : Player) (eliminatedPlayers : List Nat) (idx : Nat) :
    Option Action :=
  let actions := p.getAvailableActions eliminatedPlayers
  if actions.isEmpty then Option.none
  else Option.some (actions.getD (idx % actions.length) Action.pass)

/-- Source `Agent::mutate` (`agent.rs` lines 362–373): reset hand, coins and beliefs,
perturb each cutoff by `0.01 * (2*random::<f64>() - 1.0)` with the two draws
`r1 r2` uniform in `[0,1)`, and mutate the utilities (noise record `n`). -/
def Player.mutate (p : Player) (r1 r2 : ℚ) (n : ActionUtilities) : Player :=
  { id := p.id
    hand := (Card.none, Card.none)
    coins := 2
    liarCutoff := p.liarCutoff + (1 / 100) * (2 * r1 - 1)
    lyingCutoff := p.lyingCutoff + (1 / 100) * (2 * r2 - 1)
    utilities := p.utilities.mutate n
    opponents := p.opponents
    perceivedHands := [] }
/-- The claimed-card table at the top of `Engine::turn`. -/
def claimedCard : Action → Card
  | Action.income => Card.none
  | Action.foreignAid => Card.none
  | Action.coup _ => Card.none
  | Action.tax => Card.duke
  | Action.assassinate _ => Card.assassin
  | Action.exchange => Card.ambassador
  | Action.steal _ => Card.captain
  | Action.pass => Card.none

/-- The `Engine` struct of `engine.rs`. -/
structure Engine where
  deck : List Card
  players : List Player
  killed : List Card
  activePlayer : Nat
deriving DecidableEq, Repr

/-- The fixed 15-card universe, in the order `Engine::new` lists it. -/
def fullDeckList : List Card :=
  [Card.duke, Card.duke, Card.duke,
   Card.captain, Card.captain, Card.captain,
   Card.ambassador, Card.ambassador, Card.ambassador,
   Card.assassin, Card.assassin, Card.assassin,
   Card.contessa, Card.contessa, Card.contessa]

/-- Source `Engine::new`: deal two cards off the top of the (already shuffled
parameter) deck to each player in index order, let each recompute beliefs
against the empty ledger, and drop the dealt prefix.  The dealing loop indexes
`deck[2*i]` and `deck[2*i + 1]` and `drain` removes the prefix; any of these
panics exactly when the deck is shorter than `2 * players.len()`, which the
guard captures (the Rust panic strikes part-way through dealing, after the
earlier players already received cards). -/
def Engine.new (players : List Player) (deck : List Card) : Option Engine :=
  if 2 * players.length ≤ deck.length then
    Option.some
      { deck := deck.drop (2 * players.length)
        players := players.enum.map fun ip =>
          (ip.2.deal (deck.getD (2 * ip.1) Card.none,
                      deck.getD (2 * ip.1 + 1) Card.none)).computeHands []
        killed := []
        activePlayer := 0 }
  else Option.none

/-- Source `Engine::rotate_active_player`. -/
def Engine.rotateActivePlayer (e : Engine) : Engine :=
  if e.activePlayer + 1 = e.players.length then { e with activePlayer := 0 }
  else { e with activePlayer := e.activePlayer + 1 }

/-- Source `Engine::check_challenges`: the first player index that is not the
claimant, answers `check_challenge` positively, and is not eliminated.  Note
the source queries `player.check_challenge(self.active_player, card)` — the
engine's active player, not the `acting_player` argument, which is used only
to exclude the claimant from being asked. -/
def Engine.checkChallenges (e : Engine) (actingPlayer : Nat) (card : Card) :
    Option Nat :=
  (e.players.enum.find? fun ip =>
    ip.1 ≠ actingPlayer ∧ ip.2.checkChallenge e.activePlayer card ∧
      ¬ip.2.isEliminated).map Prod.fst

/-- Source `Engine::check_blocks`: the first non-active, non-eliminated player whose
`check_block` answers positively, together with the card it blocks with. -/
def Engine.checkBlocks (e : Engine) (action : Action) : Option (Nat × Card) :=
  (e.players.enum.find? fun ip =>
    ip.1 ≠ e.activePlayer ∧ (ip.2.checkBlock action).1 ∧
      ¬ip.2.isEliminated).map fun ip => (ip.1, (ip.2.checkBlock action).2)

/-- The `if lost != Card::None { self.killed.push(lost) }` idiom. -/
def Engine.pushKilled (e : Engine) (lost : Card) : Engine :=
  if lost = Card.none then e else { e with killed := e.killed ++ [lost] }

/-- Source `Engine::complete_action`.  `r` is the `random()` flip a Coup or
Assassinate target consumes in `lose_influence`.  Note the Exchange arm: the
source reads `Action::Exchange => ()` — nothing happens. -/
def Engine.completeAction (e : Engine) (action : Action) (r : Bool) :
    Option Engine :=
  match action with
  | Action.income =>
      (e.players.get? e.activePlayer).map fun p =>
        { e with players := e.players.set e.activePlayer (p.gainCoins 1) }
  | Action.foreignAid =>
      (e.players.get? e.activePlayer).map fun p =>
        { e with players := e.players.set e.activePlayer (p.gainCoins 2) }
  | Action.coup target =>
      (e.players.get? e.activePlayer).bind fun p =>
        let e := { e with
          players := e.players.set e.activePlayer (p.loseCoins 7).1 }
        (e.players.get? target).map fun t =>
          let lostPair := t.loseInfluence r
          Engine.pushKilled
            { e with players := e.players.set target lostPair.1 } lostPair.2
  | Action.tax =>
      (e.players.get? e.activePlayer).map fun p =>
        { e with players := e.players.set e.activePlayer (p.gainCoins 3) }
  | Action.assassinate target =>
      (e.players.get? e.activePlayer).bind fun p =>
        let e := { e with
          players := e.players.set e.activePlayer (p.loseCoins 3).1 }
        (e.players.get? target).map fun t =>
          let lostPair := t.loseInfluence r
          Engine.pushKilled
            { e with players := e.players.set target lostPair.1 } lostPair.2
  | Action.exchange => Option.some e
  | Action.steal target =>
      (e.players.get? target).bind fun t =>
        let stolenPair := t.loseCoins 2
        let e := { e with players := e.players.set target stolenPair.1 }
        (e.players.get? e.activePlayer).map fun p =>
          { e with players :=
              e.players.set e.activePlayer (p.gainCoins stolenPair.2) }
  | Action.pass => Option.some e

/-- The primary challenge phase of `Engine::turn` (the `match challenger`
block): if someone challenges and the claimant holds the card, the challenger
loses influence and the claimant trades the claimed card for the top of the
deck (after pushing the claimed card to the bottom); if the claimant lacks it,
the claimant loses influence and the action is prevented.  Returns the new
state and the `prevented` flag. -/
def Engine.challengeResolve (e : Engine) (card : Card) (r : Bool) :
    Engine × Bool :=
  match e.checkChallenges e.activePlayer card with
  | Option.none => (e, false)
  | Option.some i =>
    if (e.players.getD e.activePlayer default).check card then
      let lostPair := (e.players.getD i default).loseInfluence r
      let e := { e with players := e.players.set i lostPair.1 }
      let e := e.pushKilled lostPair.2
      let deck2 := e.deck ++ [card]
      let swapped := (e.players.getD e.activePlayer default).replace card
        (deck2.getD 0 Card.none)
      let e := { e with players := e.players.set e.activePlayer swapped }
      ({ e with deck := deck2.drop 1 }, false)
    else
      let lostPair := (e.players.getD e.activePlayer default).loseInfluence r
      let e := { e with players := e.players.set e.activePlayer lostPair.1 }
      (e.pushKilled lostPair.2, true)

/-- The counter-challenge sub-phase of `Engine::turn` (the inner `match
challenger` after a block by player `i` claiming `card`): unchallenged blocks
prevent the action; a challenged blocker holding the card costs the challenger
`j` an influence, swaps the blocker's card, and still prevents the action; a
challenged blocker lacking the card loses an influence and the action
proceeds. -/
def Engine.counterChallengeResolve (e : Engine) (i : Nat) (card : Card)
    (r : Bool) : Engine × Bool :=
  match e.checkChallenges i card with
  | Option.none => (e, true)
  | Option.some j =>
    if (e.players.getD i default).check card then
      let lostPair := (e.players.getD j default).loseInfluence r
      let e := { e with players := e.players.set j lostPair.1 }
      let e := e.pushKilled lostPair.2
      let deck2 := e.deck ++ [card]
      let swapped := (e.players.getD i default).replace card
        (deck2.getD 0 Card.none)
      let e := { e with players := e.players.set i swapped }
      ({ e with deck := deck2.drop 1 }, true)
    else
      let lostPair := (e.players.getD i default).loseInfluence r
      let e := { e with players := e.players.set i lostPair.1 }
      (e.pushKilled lostPair.2, false)

/-- The block phase of `Engine::turn` (`let block = self.check_blocks(action)`
followed by `if !prevented { match block { ... } }`): the source computes the
block answer unconditionally before testing `prevented`, but `check_blocks`
is pure (`&self`), so consulting it only in the un-prevented branch is
observationally identical.  Returns the new state and the final `prevented`
flag. -/
def Engine.blockPhase (e : Engine) (prevented : Bool) (action : Action)
    (r : Bool) : Engine × Bool :=
  if prevented then (e, true)
  else
    match e.checkBlocks action with
    | Option.none => (e, false)
    | Option.some ic => e.counterChallengeResolve ic.1 ic.2 r

/-- The eliminated-player list built at the top of `Engine::turn`. -/
def elimIdx (players : List Player) : List Nat :=
  (players.enum.filter fun ip => ip.2.isEliminated).map Prod.fst

/-- The win check at the bottom of `Engine::turn`: when the (start-of-turn)
eliminated list has exactly `players.len() - 1` entries, the first index not
in it. -/
def winCheck (eliminatedPlayers : List Nat) (n : Nat) : Option Nat :=
  if eliminatedPlayers.length = n - 1 then
    (List.range n).find? fun i => i ∉ eliminatedPlayers
  else Option.none

/-- The randomness one call to `Engine::turn` may consume. -/
structure Oracle where
  /-- The uniform pick inside the active player's `select_action`. -/
  actionIdx : Nat
  /-- The `random()` flip of the influence loss in the challenge phase. -/
  r1 : Bool
  /-- The `random()` flip of the influence loss in the counter-challenge. -/
  r2 : Bool
  /-- The `random()` flip of the influence loss in `complete_action`. -/
  r3 : Bool

/-- Source `Engine::turn`: recompute every player's beliefs and the eliminated list,
let the active player select an action, run the challenge phase, compute the
block answer (the source computes it unconditionally, after the challenge
phase, and consults it only when the action was not already prevented), run
the counter-challenge for a block, complete the action unless prevented,
rotate, and finally apply the win check to the START-of-turn eliminated list.
Result `Option.none` is a Rust panic (active index out of range, or
`select_action` unwrapping an empty action list). -/
def Engine.turn (e0 : Engine) (o : Oracle) : Option (Engine × Option Nat) :=
  let e1 := { e0 with
    players := e0.players.map (fun p : Player => p.computeHands e0.killed) }
  let eliminatedPlayers := elimIdx e1.players
  match e1.players.get? e1.activePlayer with
  | Option.none => Option.none
  | Option.some active =>
    match active.selectAction eliminatedPlayers o.actionIdx with
    | Option.none => Option.none
    | Option.some action =>
      let card := claimedCard action
      let step1 := e1.challengeResolve card o.r1
      let step2 := step1.1.blockPhase step1.2 action o.r2
      match (if step2.2 then Option.some step2.1
             else step2.1.completeAction action o.r3) with
      | Option.none => Option.none
      | Option.some e4 =>
        let e5 := e4.rotateActivePlayer
        Option.some (e5, winCheck eliminatedPlayers e5.players.length)

/-- The loop body of `Engine::play`, with an explicit fuel argument (the
source's loop is bounded by the 1000-turn cap, so fuel `1001` is enough; fuel
exhaustion and panics share `Option.none`).  The result pairs the winning
player's index (the source returns `players[i].clone()`) with the number of
`turn` calls made. -/
def Engine.playLoop (os : Nat → Oracle) :
    Engine → Option Nat → Nat → Nat → Option (Nat × Nat)
  | _, _, _, 0 => Option.none
  | e, winnerOpt, counter, fuel + 1 =>
    match winnerOpt with
    | Option.some p =>
        if p < e.players.length then Option.some (p, counter) else Option.none
    | Option.none =>
      match e.turn (os counter) with
      | Option.none => Option.none
      | Option.some step =>
        if counter + 1 = 1000 then
          if step.1.players.length = 0 then Option.none
          else Option.some (0, counter + 1)
        else Engine.playLoop os step.1 step.2 (counter + 1) fuel

/-- Source `Engine::play`: run `turn` in a loop, returning the winner as soon as the
previous iteration produced one, and defaulting to player 0 when the counter
reaches 1000. -/
def Engine.play (e : Engine) (os : Nat → Oracle) : Option (Nat × Nat) :=
  Engine.playLoop os e Option.none 0 1001
/-- Refinement reference for the counter-challenge criterion, following the
spec's words: during a counter-challenge "the blocker [is] claimant", and
`checkChallenge(active, claimedCard)` is "true iff
`perceivedHands[active][claimedCard] < liar_cutoff`" — so each eligible
player should judge `actingPlayer` (the claimant handed to the loop), not the
engine's active player. -/
def Engine.checkChallengesClaimant (e : Engine) (actingPlayer : Nat)
    (card : Card) : Option Nat :=
  (e.players.enum.find? fun ip =>
    ip.1 ≠ actingPlayer ∧ ip.2.checkChallenge actingPlayer card ∧
      ¬ip.2.isEliminated).map Prod.fst

/-! ## Concrete fixtures used by witnesses and counterexamples -/

/-- Zero utility table for fixtures. -/
def zeroUtils : ActionUtilities := ⟨0, 0, 0, 0, 0, 0, 0⟩

/-- Fixture: a player holding Duke and Contessa. -/
def pReplaceW : Player :=
  { id := 0, hand := (Card.duke, Card.contessa), coins := 2, liarCutoff := 0,
    lyingCutoff := 2, utilities := zeroUtils, opponents := 1,
    perceivedHands := [] }

/-- Fixture: an agent targeted by an assassination, certain (probability 1)
that its own hand looks like it holds Contessa, with `lying_cutoff` 1/2. -/
def pContessaBlocker : Player :=
  { id := 0, hand := (Card.assassin, Card.contessa), coins := 2,
    liarCutoff := 0, lyingCutoff := 1 / 2, utilities := zeroUtils,
    opponents := 1, perceivedHands := [⟨0, 0, 0, 0, 1⟩, ⟨0, 0, 0, 0, 0⟩] }

/-- Fixture: an observer holding two Dukes among 4 seats. -/
def pTwoDukes : Player :=
  { id := 0, hand := (Card.duke, Card.duke), coins := 2, liarCutoff := 0,
    lyingCutoff := 2, utilities := zeroUtils, opponents := 3,
    perceivedHands := [] }

/-- Fixture engine for the counter-challenge phase: player 0 is active,
player 1 has just blocked claiming Duke, player 2 has `liar_cutoff` 1/2 and
believes player 1 surely holds Duke (probability 1) but player 0 surely does
not (probability 0). -/
def blockerEngine : Engine :=
  { deck := []
    killed := []
    activePlayer := 0
    players :=
      [{ id := 0, hand := (Card.assassin, Card.none), coins := 2,
         liarCutoff := 0, lyingCutoff := 2, utilities := zeroUtils,
         opponents := 2,
         perceivedHands := [⟨0, 0, 0, 0, 0⟩, ⟨0, 0, 0, 0, 0⟩, ⟨0, 0, 0, 0, 0⟩] },
       { id := 1, hand := (Card.duke, Card.none), coins := 2, liarCutoff := 0,
         lyingCutoff := 2, utilities := zeroUtils, opponents := 2,
         perceivedHands := [⟨0, 0, 0, 0, 0⟩, ⟨0, 0, 0, 0, 0⟩, ⟨0, 0, 0, 0, 0⟩] },
       { id := 2, hand := (Card.captain, Card.none), coins := 2,
         liarCutoff := 1 / 2, lyingCutoff := 2, utilities := zeroUtils,
         opponents := 2,
         perceivedHands := [⟨0, 0, 0, 0, 0⟩, ⟨1, 1, 1, 1, 1⟩, ⟨0, 0, 0, 0, 0⟩] }] }

/-! ## Claim theorems -/

/-- Claim C1: The engine's Exchange arm is a no-op: `complete_action` leaves
the whole engine state (deck, every hand, the kill-ledger, the coins)
unchanged — it never draws 2 cards, never invokes the active player's
`exchange`, and returns nothing to the deck bottom, contrary to the claim. -/
theorem c1_exchange_arm_is_noop (e : Engine) (r : Bool) :
    e.completeAction Action.exchange r = Option.some e := rfl

/-- Claim C2: In the counter-challenge after player 1's block with Duke,
`check_challenges` asks the other players about the *active player's*
perceived hand, not the blocker's: player 2, who is certain the blocker holds
Duke (belief 1 ≥ liar_cutoff 1/2, so by the claim's criterion it must not
challenge) but is certain the active player does not (belief 0 < 1/2),
challenges anyway; under the spec's blocker-as-claimant criterion
(`checkChallengesClaimant`) nobody would challenge. -/
theorem c2_counter_challenge_judges_active_player :
    blockerEngine.checkChallenges 1 Card.duke = Option.some 2 ∧
      blockerEngine.checkChallengesClaimant 1 Card.duke = Option.none :=
  of_decide_eq_true (by with_unfolding_all rfl)

/-- Claim C3: Whenever a non-eliminated agent blocks an assassination, the
blocking card it returns is `Card::Duke`, not Contessa as the claim states
(the probability tested is Contessa's, making the returned card a slip). -/
theorem c3_assassinate_block_returns_duke (p : Player) (i : Nat)
    (h : ¬p.isEliminated) :
    (p.checkBlock (Action.assassinate i)).2 = Card.duke := by
  simp [Player.checkBlock, h]

/-- Claim C3 witness: the concrete targeted agent blocks (condition true) and
the returned card evaluates to Duke. -/
theorem c3_witness :
    ¬pContessaBlocker.isEliminated ∧
      pContessaBlocker.checkBlock (Action.assassinate 0) = (true, Card.duke) ∧
      (pContessaBlocker.checkBlock (Action.assassinate 0)).2 = Card.duke := by
  refine ⟨by decide, of_decide_eq_true (by with_unfolding_all rfl),
    c3_assassinate_block_returns_duke _ 0 (by decide)⟩

/-- Claim C8 counterexample: Constructing an engine with zero players does not
fail at all, let alone fail fast: `Engine::new` happily returns a degenerate
engine with no players and an untouched deck. -/
theorem c8_zero_players_constructs :
    Engine.new ([] : List Player) fullDeckList =
      Option.some { deck := fullDeckList, players := [], killed := [],
                    activePlayer := 0 } := by
  rfl

/-- Claim C8 amended: `Engine::new` performs no validation: it fails (a Rust
out-of-bounds panic raised part-way through the dealing loop, after earlier
players have already been dealt) exactly when the deck cannot supply two cards
per player; in particular zero players succeeds and, with the fixed 15-card
deck, only player counts of 8 or more fail. -/
theorem c8_new_fails_iff_deck_short (ps : List Player) (deck : List Card) :
    Engine.new ps deck = Option.none ↔ deck.length < 2 * ps.length := by
  unfold Engine.new
  split <;> simp <;> omega

/-- Claim C10: `Player::replace` with a `current` card that does not match the
first hand slot unconditionally overwrites the second slot (whether or not
`current` is present anywhere in the hand): the first slot is kept and
whatever was in the second slot is silently lost. -/
theorem c10_replace_overwrites_second_slot (p : Player) (current new : Card)
    (h : p.hand.1 ≠ current) :
    (p.replace current new).hand = (p.hand.1, new) := by
  simp [Player.replace, h]

/-- Claim C10 witness: replacing an absent card (`Assassin`) in the hand
(Duke, Contessa) succeeds and silently discards the Contessa. -/
theorem c10_witness :
    pReplaceW.hand.1 ≠ Card.assassin ∧
      (pReplaceW.replace Card.assassin Card.captain).hand =
        (pReplaceW.hand.1, Card.captain) := by
  refine ⟨by decide, c10_replace_overwrites_second_slot _ _ _ (by decide)⟩

/-- Claim C9: Mutation: the offspring's cutoffs are exactly the parent's plus
`0.01 * (2r - 1)` (no clamping), which for `r ∈ [0,1)` differs from the
parent by a value in `[-0.01, 0.01) ⊆ [-0.01, 0.01]`; each of the 7 utility
weights grows by its noise value in `[0, 0.1)`. -/
theorem c9_mutation_bounds (p : Player) (r1 r2 : ℚ) (n : ActionUtilities)
    (h1a : 0 ≤ r1) (h1b : r1 < 1) (h2a : 0 ≤ r2) (h2b : r2 < 1)
    (hn : 0 ≤ n.income ∧ n.income < 1 / 10 ∧ 0 ≤ n.foreignaid ∧
      n.foreignaid < 1 / 10 ∧ 0 ≤ n.coup ∧ n.coup < 1 / 10 ∧ 0 ≤ n.tax ∧
      n.tax < 1 / 10 ∧ 0 ≤ n.assassinate ∧ n.assassinate < 1 / 10 ∧
      0 ≤ n.exchange ∧ n.exchange < 1 / 10 ∧ 0 ≤ n.steal ∧ n.steal < 1 / 10) :
    (p.mutate r1 r2 n).liarCutoff = p.liarCutoff + (1 / 100) * (2 * r1 - 1) ∧
    (p.mutate r1 r2 n).lyingCutoff = p.lyingCutoff + (1 / 100) * (2 * r2 - 1) ∧
    (-(1 / 100) ≤ (p.mutate r1 r2 n).liarCutoff - p.liarCutoff ∧
      (p.mutate r1 r2 n).liarCutoff - p.liarCutoff ≤ 1 / 100) ∧
    (-(1 / 100) ≤ (p.mutate r1 r2 n).lyingCutoff - p.lyingCutoff ∧
      (p.mutate r1 r2 n).lyingCutoff - p.lyingCutoff ≤ 1 / 100) ∧
    (0 ≤ (p.mutate r1 r2 n).utilities.income - p.utilities.income ∧
      (p.mutate r1 r2 n).utilities.income - p.utilities.income < 1 / 10) ∧
    (0 ≤ (p.mutate r1 r2 n).utilities.foreignaid - p.utilities.foreignaid ∧
      (p.mutate r1 r2 n).utilities.foreignaid - p.utilities.foreignaid < 1 / 10) ∧
    (0 ≤ (p.mutate r1 r2 n).utilities.coup - p.utilities.coup ∧
      (p.mutate r1 r2 n).utilities.coup - p.utilities.coup < 1 / 10) ∧
    (0 ≤ (p.mutate r1 r2 n).utilities.tax - p.utilities.tax ∧
      (p.mutate r1 r2 n).utilities.tax - p.utilities.tax < 1 / 10) ∧
    (0 ≤ (p.mutate r1 r2 n).utilities.assassinate - p.utilities.assassinate ∧
      (p.mutate r1 r2 n).utilities.assassinate - p.utilities.assassinate < 1 / 10) ∧
    (0 ≤ (p.mutate r1 r2 n).utilities.exchange - p.utilities.exchange ∧
      (p.mutate r1 r2 n).utilities.exchange - p.utilities.exchange < 1 / 10) ∧
    (0 ≤ (p.mutate r1 r2 n).utilities.steal - p.utilities.steal ∧
      (p.mutate r1 r2 n).utilities.steal - p.utilities.steal < 1 / 10) := by
  obtain ⟨a1, a2, b1, b2, c1, c2, d1, d2, e1, e2, f1, f2, g1, g2⟩ := hn
  refine ⟨rfl, rfl, ?_, ?_, ?_, ?_, ?_, ?_, ?_, ?_, ?_⟩ <;>
    simp only [Player.mutate, ActionUtilities.mutate] <;>
    constructor <;> linarith

/-- Claim C9 witness: mutating cutoffs of 0.50 with concrete draws lands inside
[0.49, 0.51] and each utility weight grows by a value in [0, 0.1). -/
theorem c9_witness :
    ((pTwoDukes.mutate (1 / 4) (3 / 4) ⟨0, 1 / 20, 0, 0, 0, 0, 0⟩).liarCutoff =
        pTwoDukes.liarCutoff + (1 / 100) * (2 * (1 / 4) - 1)) ∧
      (0 ≤ (pTwoDukes.mutate (1 / 4) (3 / 4)
          ⟨0, 1 / 20, 0, 0, 0, 0, 0⟩).utilities.foreignaid -
            pTwoDukes.utilities.foreignaid) := by
  have h := c9_mutation_bounds pTwoDukes (1 / 4) (3 / 4)
    ⟨0, 1 / 20, 0, 0, 0, 0, 0⟩ (by norm_num) (by norm_num) (by norm_num)
    (by norm_num) (by norm_num)
  exact ⟨h.1, h.2.2.2.2.2.1.1⟩

/-- Claim C7: An observer holding {Duke, Duke} with an empty kill-ledger
assigns every other seat the Duke belief `1 - (12/13)*(11/12)` (the private
pool has 13 unseen cards with 1 Duke left). -/
theorem c7_two_dukes_belief (p : Player) (i : Nat)
    (hhand : p.hand = (Card.duke, Card.duke)) (hi : i < p.opponents + 1)
    (hne : i ≠ p.id) :
    ((p.computeHands []).perceivedHands.getD i default).duke =
      1 - (12 / 13) * (11 / 12) := by
  simp only [Player.computeHands]
  rw [List.getD_eq_getElem]
  · simp only [List.getElem_map, List.getElem_range, hne, if_false, hhand,
      killCount, probAtLeastOne]
    norm_num
  · simpa using hi

/-- Claim C7 witness: the concrete two-Duke observer at seat 0 assigns seat 1
exactly `1 - (12/13)*(11/12) = 2/13`. -/
theorem c7_witness :
    ((pTwoDukes.computeHands []).perceivedHands.getD 1 default).duke =
      1 - (12 / 13) * (11 / 12) :=
  c7_two_dukes_belief pTwoDukes 1 rfl (by decide) (by decide)
/-- Loop bound for `Engine.playLoop`: starting below the 1000-turn cap, any
result was produced within 1000 `turn` calls, and a result produced exactly at
the cap names player 0. -/
theorem playLoop_cap (os : Nat → Oracle) :
    ∀ (fuel : Nat) (e : Engine) (opt : Option Nat) (counter w k : Nat),
      counter < 1000 →
      Engine.playLoop os e opt counter fuel = Option.some (w, k) →
      k ≤ 1000 ∧ (k = 1000 → w = 0) := by
  intro fuel
  induction fuel with
  | zero => intro e opt counter w k _ h; simp [Engine.playLoop] at h
  | succ fuel ih =>
    intro e opt counter w k hc h
    cases opt with
    | some p =>
      simp only [Engine.playLoop] at h
      split at h
      · simp only [Option.some.injEq, Prod.mk.injEq] at h
        omega
      · simp at h
    | none =>
      simp only [Engine.playLoop] at h
      split at h
      · simp at h
      · split at h
        · split at h
          · simp at h
          · simp only [Option.some.injEq, Prod.mk.injEq] at h
            omega
        · exact ih _ _ (counter + 1) w k (by omega) h

/-- Claim C5: `Engine::play` returns after at most 1000 calls to `turn` (the
second component of the result counts them), and whenever it returns at the
1000-call cap — i.e. no natural winner was signalled by any of the first 999
calls — the returned winner is player 0. -/
theorem c5_play_cap (e : Engine) (os : Nat → Oracle) (w k : Nat)
    (h : e.play os = Option.some (w, k)) :
    k ≤ 1000 ∧ (k = 1000 → w = 0) :=
  playLoop_cap os 1001 e Option.none 0 w k (by omega) h

/-- Fixture: an oracle stream that always picks the first available action and
answers `false` to every coin flip. -/
def osZero : Nat → Oracle := fun _ => ⟨0, false, false, false⟩

/-- Fixture: a 2-player endgame — player 0 alive, player 1 eliminated — whose
first turn signals the winner. -/
def gWin : Engine :=
  { deck := []
    killed := []
    activePlayer := 0
    players :=
      [{ id := 0, hand := (Card.contessa, Card.contessa), coins := 2,
         liarCutoff := 0, lyingCutoff := 2, utilities := zeroUtils,
         opponents := 1, perceivedHands := [] },
       { id := 1, hand := (Card.none, Card.none), coins := 2, liarCutoff := 0,
         lyingCutoff := 2, utilities := zeroUtils, opponents := 1,
         perceivedHands := [] }] }

/-- Claim C5 witness: the concrete endgame returns winner 0 after exactly one
`turn` call, and the cap theorem applies to it. -/
theorem c5_witness :
    gWin.play osZero = Option.some (0, 1) ∧ 1 ≤ 1000 ∧ ((1 : Nat) = 1000 → (0 : Nat) = 0) := by
  have hplay : gWin.play osZero = Option.some (0, 1) :=
    of_decide_eq_true (by with_unfolding_all rfl)
  exact ⟨hplay, c5_play_cap gWin osZero 0 1 hplay⟩
/-! ## Structural lemmas about the turn phases -/

theorem pushKilled_players (e : Engine) (c : Card) :
    (e.pushKilled c).players = e.players := by
  unfold Engine.pushKilled; split <;> rfl

theorem pushKilled_deck (e : Engine) (c : Card) :
    (e.pushKilled c).deck = e.deck := by
  unfold Engine.pushKilled; split <;> rfl

theorem pushKilled_activePlayer (e : Engine) (c : Card) :
    (e.pushKilled c).activePlayer = e.activePlayer := by
  unfold Engine.pushKilled; split <;> rfl

theorem computeHands_hand (p : Player) (k : List Card) :
    (p.computeHands k).hand = p.hand := rfl

theorem computeHands_isEliminated (p : Player) (k : List Card) :
    (p.computeHands k).isEliminated = p.isEliminated := rfl

theorem challengeResolve_players_length (e : Engine) (card : Card) (r : Bool) :
    ((e.challengeResolve card r).1).players.length = e.players.length := by
  unfold Engine.challengeResolve
  split
  · rfl
  · split <;> simp [pushKilled_players, List.length_set]

theorem counterChallengeResolve_players_length (e : Engine) (i : Nat)
    (card : Card) (r : Bool) :
    ((e.counterChallengeResolve i card r).1).players.length =
      e.players.length := by
  unfold Engine.counterChallengeResolve
  split
  · rfl
  · split <;> simp [pushKilled_players, List.length_set]

theorem completeAction_players_length {e e' : Engine} {a : Action} {r : Bool}
    (h : e.completeAction a r = Option.some e') :
    e'.players.length = e.players.length := by
  cases a <;>
    simp only [Engine.completeAction, Option.map_eq_some',
      Option.bind_eq_some, Option.some.injEq] at h
  case income => obtain ⟨p, _, rfl⟩ := h; simp
  case foreignAid => obtain ⟨p, _, rfl⟩ := h; simp
  case coup => obtain ⟨p, _, t, _, rfl⟩ := h; simp [pushKilled_players]
  case tax => obtain ⟨p, _, rfl⟩ := h; simp
  case assassinate => obtain ⟨p, _, t, _, rfl⟩ := h; simp [pushKilled_players]
  case exchange => subst h; rfl
  case steal => obtain ⟨t, _, p, _, rfl⟩ := h; simp
  case pass => subst h; rfl

theorem blockPhase_players_length (e : Engine) (prevented : Bool) (a : Action)
    (r : Bool) :
    ((e.blockPhase prevented a r).1).players.length = e.players.length := by
  unfold Engine.blockPhase
  split
  · rfl
  · split
    · rfl
    · exact counterChallengeResolve_players_length _ _ _ _

theorem rotateActivePlayer_players (e : Engine) :
    (e.rotateActivePlayer).players = e.players := by
  unfold Engine.rotateActivePlayer; split <;> rfl

theorem enumFrom_map {α β : Type} (f : α → β) :
    ∀ (k : Nat) (l : List α),
      List.enumFrom k (l.map f) = (List.enumFrom k l).map (Prod.map id f) := by
  intro k l
  induction l generalizing k with
  | nil => rfl
  | cons a l ih => simp [List.enumFrom, ih]

theorem elimIdx_map_computeHands (ps : List Player) (k : List Card) :
    elimIdx (ps.map fun p => p.computeHands k) = elimIdx ps := by
  unfold elimIdx
  show (((List.enumFrom 0 (ps.map fun p => p.computeHands k)).filter _).map _) = _
  rw [enumFrom_map]
  rw [List.filter_map, List.map_map]
  congr 1

/-- Claim C4 amended: `Engine::turn` signals the winner from the
START-of-turn snapshot: whenever a turn completes, the returned winner option
is exactly `winCheck` applied to the eliminated list computed *before* the
action resolved — `Some i` iff that pre-action list already had
`players.len - 1` entries, with `i` the smallest index outside it.
Eliminations that happen during the turn are therefore only reflected in the
next turn's signal. -/
theorem c4_win_signal_uses_start_snapshot (e : Engine) (o : Oracle)
    (e' : Engine) (r : Option Nat) (h : e.turn o = Option.some (e', r)) :
    r = winCheck (elimIdx e.players) e.players.length := by
  simp only [Engine.turn] at h
  split at h
  · simp at h
  · split at h
    · simp at h
    · rename_i active hactive action haction
      split at h
      · simp at h
      · rename_i e4 he4
        simp only [Option.some.injEq, Prod.mk.injEq] at h
        obtain ⟨he', hr⟩ := h
        subst hr
        rw [elimIdx_map_computeHands]
        congr 1
        rw [rotateActivePlayer_players]
        have hlen : e4.players.length = e.players.length := by
          have hbp := blockPhase_players_length
            ((({ e with players := e.players.map fun p =>
              p.computeHands e.killed } : Engine).challengeResolve
                (claimedCard action) o.r1).1)
            (({ e with players := e.players.map fun p =>
              p.computeHands e.killed } : Engine).challengeResolve
                (claimedCard action) o.r1).2 action o.r2
          have hcr := challengeResolve_players_length
            ({ e with players := e.players.map fun p =>
              p.computeHands e.killed } : Engine) (claimedCard action) o.r1
          split at he4
          · simp only [Option.some.injEq] at he4
            subst he4
            simp only [hbp, hcr, List.length_map]
          · have := completeAction_players_length he4
            simp only [this, hbp, hcr, List.length_map]
        rw [hlen]

/-- Fixture: 3 players — player 0 active with 10 coins (forced Coup),
player 1 alive with one influence, player 2 already eliminated. -/
def eForcedCoup : Engine :=
  { deck := []
    killed := []
    activePlayer := 0
    players :=
      [{ id := 0, hand := (Card.contessa, Card.contessa), coins := 10,
         liarCutoff := 0, lyingCutoff := 2, utilities := zeroUtils,
         opponents := 2, perceivedHands := [] },
       { id := 1, hand := (Card.duke, Card.none), coins := 2, liarCutoff := 0,
         lyingCutoff := 2, utilities := zeroUtils, opponents := 2,
         perceivedHands := [] },
       { id := 2, hand := (Card.none, Card.none), coins := 2, liarCutoff := 0,
         lyingCutoff := 2, utilities := zeroUtils, opponents := 2,
         perceivedHands := [] }] }

/-- Claim C4 counterexample: In the fixture the forced Coup eliminates
player 1 during the turn, leaving exactly one non-eliminated player
(3 players, 2 now eliminated) — yet `turn` signals no winner (`none`),
because the win check reads the start-of-turn snapshot.  So "signals a winner
exactly when exactly one player remains non-eliminated" fails. -/
theorem c4_counterexample :
    (eForcedCoup.turn ⟨0, false, false, false⟩).map
        (fun x => (x.2, (elimIdx x.1.players).length, x.1.players.length)) =
      Option.some (Option.none, 2, 3) :=
  of_decide_eq_true (by with_unfolding_all rfl)

/-- Claim C4 witness for the amended theorem: on the same fixture the signal
equals the win check of the start-of-turn eliminated list (here `none`). -/
theorem c4_witness :
    (eForcedCoup.turn ⟨0, false, false, false⟩).map Prod.snd =
      Option.some (winCheck (elimIdx eForcedCoup.players)
        eForcedCoup.players.length) := by
  cases hT : eForcedCoup.turn ⟨0, false, false, false⟩ with
  | none => exact absurd hT (of_decide_eq_true (by with_unfolding_all rfl))
  | some pr =>
    have hsnap := c4_win_signal_uses_start_snapshot eForcedCoup
      ⟨0, false, false, false⟩ pr.1 pr.2 hT
    simp [hsnap]
/-! ## Card conservation (C6) -/

/-- The multiset contribution of one hand slot: a sentinel counts as zero. -/
def realM (c : Card) : Multiset Card :=
  if c = Card.none then 0 else {c}

/-- The non-sentinel cards of a player's two hand slots, as a multiset. -/
def handCards (p : Player) : Multiset Card :=
  realM p.hand.1 + realM p.hand.2

/-- The non-sentinel cards of all hands. -/
def allHands (ps : List Player) : Multiset Card :=
  (ps.map handCards).sum

/-- Every card the engine tracks: the deck, all hands (sentinels zero) and the
kill-ledger. -/
def stateCards (e : Engine) : Multiset Card :=
  (e.deck : Multiset Card) + allHands e.players + (e.killed : Multiset Card)

/-- The fixed 15-card universe as a multiset. -/
def fullM : Multiset Card := (fullDeckList : Multiset Card)

/-- The conservation invariant: the tracked cards are exactly the 15-card
universe, and the deck holds no sentinel (which also forces the ledger to be
sentinel-free, since `stateCards` counts ledger entries verbatim). -/
def ConservationInv (e : Engine) : Prop :=
  stateCards e = fullM ∧ e.deck.count Card.none = 0

theorem handCards_computeHands (p : Player) (k : List Card) :
    handCards (p.computeHands k) = handCards p := rfl

theorem allHands_cons (p : Player) (ps : List Player) :
    allHands (p :: ps) = handCards p + allHands ps := by
  simp [allHands]

theorem allHands_map_computeHands (ps : List Player) (k : List Card) :
    allHands (ps.map fun p => p.computeHands k) = allHands ps := by
  unfold allHands
  rw [List.map_map]
  congr 1

theorem allHands_set :
    ∀ (ps : List Player) (i : Nat) (q : Player), i < ps.length →
      allHands (ps.set i q) + handCards (ps.getD i default) =
        allHands ps + handCards q := by
  intro ps
  induction ps with
  | nil => intro i q h; simp at h
  | cons p ps ih =>
    intro i q h
    cases i with
    | zero => simp [List.set, allHands_cons, List.getD]; abel
    | succ i =>
      simp only [List.set, allHands_cons, List.getD_cons_succ]
      have := ih i q (by simpa using h)
      calc handCards p + allHands (ps.set i q) + handCards (ps.getD i default)
          = handCards p + (allHands (ps.set i q) + handCards (ps.getD i default)) := by abel
        _ = handCards p + (allHands ps + handCards q) := by rw [this]
        _ = handCards p + allHands ps + handCards q := by abel

theorem getD_set_ne (ps : List Player) (i j : Nat) (q : Player)
    (h : i ≠ j) : (ps.set i q).getD j default = ps.getD j default := by
  simp [List.getD_eq_getElem?_getD, List.getElem?_set_ne h]

theorem loseInfluence_conservation (p : Player) (r : Bool) :
    handCards (p.loseInfluence r).1 + realM (p.loseInfluence r).2 =
      handCards p := by
  unfold Player.loseInfluence
  by_cases h1 : p.hand.1 = Card.none <;> by_cases h2 : p.hand.2 = Card.none <;>
    cases r <;>
    · simp [handCards, realM, h1, h2]
      try exact Multiset.cons_swap _ _ _

theorem replace_conservation (p : Player) (card d : Card)
    (h : p.check card = true) :
    handCards (p.replace card d) + realM card = handCards p + realM d := by
  simp only [Player.check, decide_eq_true_eq] at h
  by_cases h1 : p.hand.1 = card
  · simp [Player.replace, h1, handCards]; abel
  · have h2 : p.hand.2 = card := h.resolve_left h1
    simp [Player.replace, h1, handCards, h2]; abel

theorem pushKilled_stateCards (e : Engine) (c : Card) :
    stateCards (e.pushKilled c) = stateCards e + realM c := by
  unfold Engine.pushKilled
  split
  · rename_i h; simp [realM, h]
  · rename_i h
    simp only [stateCards, realM, h, if_false, ← Multiset.coe_singleton,
      ← Multiset.coe_add]
    abel

theorem coe_eq_head_add_drop (l : List Card) (h : l ≠ []) :
    (l : Multiset Card) = {l.getD 0 Card.none} + ↑(l.drop 1) := by
  cases l with
  | nil => exact absurd rfl h
  | cons a t => simp [List.getD]

theorem head_append_ne_none (l : List Card) (c : Card)
    (hl : l.count Card.none = 0) (hc : c ≠ Card.none) :
    (l ++ [c]).getD 0 Card.none ≠ Card.none := by
  cases l with
  | nil => simpa [List.getD]
  | cons a t =>
    have : a ≠ Card.none := by
      intro ha
      subst ha
      simp [List.count_cons] at hl
    simpa [List.getD]

theorem mem_enumFrom_bounds {α : Type} :
    ∀ (l : List α) (k : Nat) (ia : Nat × α),
      ia ∈ List.enumFrom k l → k ≤ ia.1 ∧ ia.1 < k + l.length := by
  intro l
  induction l with
  | nil => intro k ia h; simp [List.enumFrom] at h
  | cons a l ih =>
    intro k ia h
    simp only [List.enumFrom, List.mem_cons] at h
    rcases h with rfl | h
    · simp
    · have := ih (k + 1) ia h
      constructor <;> [omega; (simp only [List.length_cons]; omega)]

/-- Whenever `check_block` answers positively, the card it returns is one of
Duke, Captain, Ambassador — never the sentinel. -/
theorem checkBlock_card_ne_none (p : Player) (a : Action)
    (h : (p.checkBlock a).1 = true) : (p.checkBlock a).2 ≠ Card.none := by
  revert h
  unfold Player.checkBlock
  split
  · simp
  · split <;> try simp
    all_goals (split <;> try simp)
    all_goals (split <;> simp)

/-- A positive `check_challenges` answer names a player other than the
claimant, in range, and implies the claimed card is not the sentinel. -/
theorem checkChallenges_some (e : Engine) (a : Nat) (card : Card) (i : Nat)
    (h : e.checkChallenges a card = Option.some i) :
    i ≠ a ∧ i < e.players.length ∧ card ≠ Card.none := by
  unfold Engine.checkChallenges at h
  rw [Option.map_eq_some'] at h
  obtain ⟨ip, hfind, hfst⟩ := h
  have hpred := List.find?_some hfind
  have hmem := List.mem_of_find?_eq_some hfind
  have hbound := mem_enumFrom_bounds e.players 0 ip hmem
  simp only [decide_eq_true_eq, Bool.and_eq_true] at hpred
  refine ⟨hfst ▸ hpred.1, by omega, ?_⟩
  intro hc
  subst hc
  have := hpred.2.1
  simp [Player.checkChallenge] at this

/-- A positive `check_blocks` answer names a player in range and a
non-sentinel blocking card. -/
theorem checkBlocks_some (e : Engine) (a : Action) (i : Nat) (card : Card)
    (h : e.checkBlocks a = Option.some (i, card)) :
    i < e.players.length ∧ card ≠ Card.none := by
  unfold Engine.checkBlocks at h
  rw [Option.map_eq_some'] at h
  obtain ⟨ip, hfind, hpair⟩ := h
  have hpred := List.find?_some hfind
  have hmem := List.mem_of_find?_eq_some hfind
  have hbound := mem_enumFrom_bounds e.players 0 ip hmem
  simp only [decide_eq_true_eq, Bool.and_eq_true] at hpred
  have hcard := checkBlock_card_ne_none ip.2 a hpred.2.1
  have h1 : ip.1 = i := congrArg Prod.fst hpair
  have h2 : (ip.2.checkBlock a).2 = card := congrArg Prod.snd hpair
  exact ⟨h1 ▸ (by omega), h2 ▸ hcard⟩
theorem pushKilled_killed (e : Engine) (c : Card) :
    ((e.pushKilled c).killed : Multiset Card) = ↑e.killed + realM c := by
  unfold Engine.pushKilled
  split
  · rename_i h; simp [realM, h]
  · rename_i h
    simp only [realM, h, if_false, ← Multiset.coe_singleton, ← Multiset.coe_add]

theorem handCards_gainCoins (p : Player) (c : Nat) :
    handCards (p.gainCoins c) = handCards p := rfl

theorem handCards_loseCoins (p : Player) (c : Nat) :
    handCards (p.loseCoins c).1 = handCards p := by
  unfold Player.loseCoins
  split <;> rfl

theorem allHands_set_samehand (ps : List Player) (i : Nat) (q : Player)
    (hlt : i < ps.length) (hq : handCards q = handCards (ps.getD i default)) :
    allHands (ps.set i q) = allHands ps := by
  have h := allHands_set ps i q hlt
  rw [hq] at h
  exact add_right_cancel h

theorem allHands_set_loseInfluence (ps : List Player) (i : Nat) (r : Bool)
    (hlt : i < ps.length) :
    allHands (ps.set i ((ps.getD i default).loseInfluence r).1) +
      realM ((ps.getD i default).loseInfluence r).2 = allHands ps := by
  have h1 := allHands_set ps i ((ps.getD i default).loseInfluence r).1 hlt
  have h2 := loseInfluence_conservation (ps.getD i default) r
  have h3 : allHands (ps.set i ((ps.getD i default).loseInfluence r).1) +
      realM ((ps.getD i default).loseInfluence r).2 +
        handCards ((ps.getD i default).loseInfluence r).1 =
      allHands ps + handCards ((ps.getD i default).loseInfluence r).1 := by
    calc allHands (ps.set i ((ps.getD i default).loseInfluence r).1) +
        realM ((ps.getD i default).loseInfluence r).2 +
          handCards ((ps.getD i default).loseInfluence r).1
        = allHands (ps.set i ((ps.getD i default).loseInfluence r).1) +
            (handCards ((ps.getD i default).loseInfluence r).1 +
              realM ((ps.getD i default).loseInfluence r).2) := by abel
      _ = allHands (ps.set i ((ps.getD i default).loseInfluence r).1) +
            handCards (ps.getD i default) := by rw [h2]
      _ = allHands ps + handCards ((ps.getD i default).loseInfluence r).1 := h1
  exact add_right_cancel h3

/-- The card-swap a surviving claimant performs (claimed card to the deck
bottom, fresh top card into the hand): conserves the tracked multiset. -/
theorem swap_conservation (deck : List Card) (ps : List Player) (act : Nat)
    (card : Card) (hact : act < ps.length) (hcard : card ≠ Card.none)
    (hdeck : deck.count Card.none = 0)
    (hcheck : ((ps.getD act default).check card) = true) :
    (↑((deck ++ [card]).drop 1) : Multiset Card) +
      allHands (ps.set act ((ps.getD act default).replace card
        ((deck ++ [card]).getD 0 Card.none))) =
      ↑deck + allHands ps := by
  set d := (deck ++ [card]).getD 0 Card.none with hd
  have hd_ne : d ≠ Card.none := head_append_ne_none deck card hdeck hcard
  set swapped := (ps.getD act default).replace card d with hsw
  have f3 := allHands_set ps act swapped hact
  have f4 := replace_conservation (ps.getD act default) card d hcheck
  have e2 : allHands (ps.set act swapped) + realM card =
      allHands ps + realM d := by
    have : allHands (ps.set act swapped) + realM card +
        handCards (ps.getD act default) =
        allHands ps + realM d + handCards (ps.getD act default) := by
      calc allHands (ps.set act swapped) + realM card +
          handCards (ps.getD act default)
          = allHands (ps.set act swapped) + handCards (ps.getD act default) +
              realM card := by abel
        _ = allHands ps + handCards swapped + realM card := by rw [f3]
        _ = allHands ps + (handCards swapped + realM card) := by abel
        _ = allHands ps + (handCards (ps.getD act default) + realM d) := by
              rw [f4]
        _ = allHands ps + realM d + handCards (ps.getD act default) := by abel
    exact add_right_cancel this
  have e3 : (↑((deck ++ [card]).drop 1) : Multiset Card) + realM d =
      ↑deck + realM card := by
    have hne : deck ++ [card] ≠ [] := by simp
    have hdec := coe_eq_head_add_drop (deck ++ [card]) hne
    rw [← Multiset.coe_add] at hdec
    have hrd : realM d = {d} := by simp [realM, hd_ne]
    have hrc : realM card = {card} := by simp [realM, hcard]
    rw [hrd, hrc]
    have : ({d} : Multiset Card) + ↑((deck ++ [card]).drop 1) =
        ↑deck + {card} := by
      rw [← hdec]; simp
    calc (↑((deck ++ [card]).drop 1) : Multiset Card) + {d}
        = ({d} : Multiset Card) + ↑((deck ++ [card]).drop 1) := by abel
      _ = ↑deck + {card} := this
  have main : (↑((deck ++ [card]).drop 1) : Multiset Card) +
      allHands (ps.set act swapped) + (realM d + realM card) =
      ↑deck + allHands ps + (realM d + realM card) := by
    calc (↑((deck ++ [card]).drop 1) : Multiset Card) +
        allHands (ps.set act swapped) + (realM d + realM card)
        = (↑((deck ++ [card]).drop 1) + realM d) +
            (allHands (ps.set act swapped) + realM card) := by abel
      _ = (↑deck + realM card) + (allHands ps + realM d) := by rw [e3, e2]
      _ = ↑deck + allHands ps + (realM d + realM card) := by abel
  exact add_right_cancel main

theorem drop_append_count_none (deck : List Card) (card : Card)
    (hdeck : deck.count Card.none = 0) (hcard : card ≠ Card.none) :
    ((deck ++ [card]).drop 1).count Card.none = 0 := by
  have hsub := List.drop_sublist 1 (deck ++ [card])
  have hle := hsub.count_le Card.none
  have : (deck ++ [card]).count Card.none = 0 := by
    simp [List.count_append, hdeck, List.count_singleton]
    intro hc
    exact hcard hc
  omega

theorem challengeResolve_conservation (e : Engine) (card : Card) (r : Bool)
    (hact : e.activePlayer < e.players.length)
    (hdeck : e.deck.count Card.none = 0) :
    stateCards (e.challengeResolve card r).1 = stateCards e ∧
      ((e.challengeResolve card r).1).deck.count Card.none = 0 := by
  simp only [Engine.challengeResolve]
  split
  · exact ⟨rfl, hdeck⟩
  · rename_i i hch
    obtain ⟨hia, hilt, hcard⟩ := checkChallenges_some e e.activePlayer card i hch
    split
    · rename_i hcheck
      constructor
      · simp only [stateCards, pushKilled_players, pushKilled_deck,
          pushKilled_killed, pushKilled_activePlayer]
        rw [getD_set_ne e.players i e.activePlayer _ hia]
        have hswap := swap_conservation e.deck
          (e.players.set i ((e.players.getD i default).loseInfluence r).1)
          e.activePlayer card (by simpa using hact) hcard hdeck
          (by rw [getD_set_ne e.players i e.activePlayer _ hia]; exact ‹_›)
        rw [getD_set_ne e.players i e.activePlayer _ hia] at hswap
        have hlose := allHands_set_loseInfluence e.players i r hilt
        calc ↑((e.deck ++ [card]).drop 1) +
            allHands ((e.players.set i
              ((e.players.getD i default).loseInfluence r).1).set e.activePlayer
                ((e.players.getD e.activePlayer default).replace card
                  ((e.deck ++ [card]).getD 0 Card.none))) +
            (↑e.killed + realM ((e.players.getD i default).loseInfluence r).2)
            = (↑e.deck + allHands (e.players.set i
                ((e.players.getD i default).loseInfluence r).1)) +
              (↑e.killed + realM ((e.players.getD i default).loseInfluence r).2)
              := by rw [← hswap]
          _ = ↑e.deck + (allHands (e.players.set i
                ((e.players.getD i default).loseInfluence r).1) +
                realM ((e.players.getD i default).loseInfluence r).2) +
              ↑e.killed := by abel
          _ = ↑e.deck + allHands e.players + ↑e.killed := by rw [hlose]
      · simpa [pushKilled_deck] using drop_append_count_none e.deck card hdeck hcard
    · rename_i hcheck
      constructor
      · rw [pushKilled_stateCards]
        simp only [stateCards]
        have hlose := allHands_set_loseInfluence e.players e.activePlayer r hact
        calc ↑e.deck + allHands (e.players.set e.activePlayer
              ((e.players.getD e.activePlayer default).loseInfluence r).1) +
            ↑e.killed +
            realM ((e.players.getD e.activePlayer default).loseInfluence r).2
            = ↑e.deck + (allHands (e.players.set e.activePlayer
                ((e.players.getD e.activePlayer default).loseInfluence r).1) +
                realM ((e.players.getD e.activePlayer default).loseInfluence r).2)
              + ↑e.killed := by abel
          _ = ↑e.deck + allHands e.players + ↑e.killed := by rw [hlose]
      · simpa [pushKilled_deck] using hdeck
theorem counterChallengeResolve_conservation (e : Engine) (i : Nat)
    (card : Card) (r : Bool) (hi : i < e.players.length)
    (hcard : card ≠ Card.none) (hdeck : e.deck.count Card.none = 0) :
    stateCards (e.counterChallengeResolve i card r).1 = stateCards e ∧
      ((e.counterChallengeResolve i card r).1).deck.count Card.none = 0 := by
  simp only [Engine.counterChallengeResolve]
  split
  · exact ⟨rfl, hdeck⟩
  · rename_i j hch
    obtain ⟨hji, hjlt, -⟩ := checkChallenges_some e i card j hch
    split
    · rename_i hcheck
      constructor
      · simp only [stateCards, pushKilled_players, pushKilled_deck,
          pushKilled_killed, pushKilled_activePlayer]
        rw [getD_set_ne e.players j i _ hji]
        have hswap := swap_conservation e.deck
          (e.players.set j ((e.players.getD j default).loseInfluence r).1)
          i card (by simpa using hi) hcard hdeck
          (by rw [getD_set_ne e.players j i _ hji]; exact ‹_›)
        rw [getD_set_ne e.players j i _ hji] at hswap
        have hlose := allHands_set_loseInfluence e.players j r hjlt
        calc ↑((e.deck ++ [card]).drop 1) +
            allHands ((e.players.set j
              ((e.players.getD j default).loseInfluence r).1).set i
                ((e.players.getD i default).replace card
                  ((e.deck ++ [card]).getD 0 Card.none))) +
            (↑e.killed + realM ((e.players.getD j default).loseInfluence r).2)
            = (↑e.deck + allHands (e.players.set j
                ((e.players.getD j default).loseInfluence r).1)) +
              (↑e.killed + realM ((e.players.getD j default).loseInfluence r).2)
              := by rw [← hswap]
          _ = ↑e.deck + (allHands (e.players.set j
                ((e.players.getD j default).loseInfluence r).1) +
                realM ((e.players.getD j default).loseInfluence r).2) +
              ↑e.killed := by abel
          _ = ↑e.deck + allHands e.players + ↑e.killed := by rw [hlose]
      · simpa [pushKilled_deck] using
          drop_append_count_none e.deck card hdeck hcard
    · rename_i hcheck
      constructor
      · rw [pushKilled_stateCards]
        simp only [stateCards]
        have hlose := allHands_set_loseInfluence e.players i r hi
        calc ↑e.deck + allHands (e.players.set i
              ((e.players.getD i default).loseInfluence r).1) + ↑e.killed +
            realM ((e.players.getD i default).loseInfluence r).2
            = ↑e.deck + (allHands (e.players.set i
                ((e.players.getD i default).loseInfluence r).1) +
                realM ((e.players.getD i default).loseInfluence r).2) +
              ↑e.killed := by abel
          _ = ↑e.deck + allHands e.players + ↑e.killed := by rw [hlose]
      · simpa [pushKilled_deck] using hdeck

theorem blockPhase_conservation (e : Engine) (prevented : Bool) (a : Action)
    (r : Bool) (hdeck : e.deck.count Card.none = 0) :
    stateCards (e.blockPhase prevented a r).1 = stateCards e ∧
      ((e.blockPhase prevented a r).1).deck.count Card.none = 0 := by
  unfold Engine.blockPhase
  split
  · exact ⟨rfl, hdeck⟩
  · split
    · exact ⟨rfl, hdeck⟩
    · rename_i ic hblk
      obtain ⟨hlt, hcard⟩ := checkBlocks_some e a ic.1 ic.2 hblk
      exact counterChallengeResolve_conservation e ic.1 ic.2 r hlt hcard hdeck

theorem get?_some_facts {ps : List Player} {i : Nat} {p : Player}
    (h : ps.get? i = some p) :
    i < ps.length ∧ ps.getD i default = p := by
  rw [List.get?_eq_getElem?] at h
  have hlt : i < ps.length := by
    by_contra hge
    rw [List.getElem?_eq_none (by omega)] at h
    simp at h
  refine ⟨hlt, ?_⟩
  rw [List.getD_eq_getElem?_getD, h]
  rfl

theorem completeAction_conservation {e e' : Engine} {a : Action} {r : Bool}
    (h : e.completeAction a r = Option.some e') :
    stateCards e' = stateCards e ∧ e'.deck = e.deck := by
  cases a <;>
    simp only [Engine.completeAction, Option.map_eq_some',
      Option.bind_eq_some, Option.some.injEq] at h
  case income =>
    obtain ⟨p, hp, rfl⟩ := h
    obtain ⟨hlt, hget⟩ := get?_some_facts hp
    refine ⟨?_, rfl⟩
    simp only [stateCards]
    rw [allHands_set_samehand _ _ _ hlt (by rw [hget]; rfl)]
  case foreignAid =>
    obtain ⟨p, hp, rfl⟩ := h
    obtain ⟨hlt, hget⟩ := get?_some_facts hp
    refine ⟨?_, rfl⟩
    simp only [stateCards]
    rw [allHands_set_samehand _ _ _ hlt (by rw [hget]; rfl)]
  case tax =>
    obtain ⟨p, hp, rfl⟩ := h
    obtain ⟨hlt, hget⟩ := get?_some_facts hp
    refine ⟨?_, rfl⟩
    simp only [stateCards]
    rw [allHands_set_samehand _ _ _ hlt (by rw [hget]; rfl)]
  case exchange => subst h; exact ⟨rfl, rfl⟩
  case pass => subst h; exact ⟨rfl, rfl⟩
  case coup target =>
    obtain ⟨p, hp, t, ht, rfl⟩ := h
    obtain ⟨hlt, hget⟩ := get?_some_facts hp
    obtain ⟨hlt2, hget2⟩ := get?_some_facts ht
    constructor
    · rw [pushKilled_stateCards]
      simp only [stateCards]
      have hlose := allHands_set_loseInfluence
        (e.players.set e.activePlayer (p.loseCoins 7).1) target r
        (by simpa using hlt2)
      rw [hget2] at hlose
      have hsame : allHands (e.players.set e.activePlayer (p.loseCoins 7).1) =
          allHands e.players :=
        allHands_set_samehand _ _ _ hlt (by rw [hget, handCards_loseCoins])
      calc ↑e.deck + allHands ((e.players.set e.activePlayer
            (p.loseCoins 7).1).set target (t.loseInfluence r).1) + ↑e.killed +
          realM (t.loseInfluence r).2
          = ↑e.deck + (allHands ((e.players.set e.activePlayer
              (p.loseCoins 7).1).set target (t.loseInfluence r).1) +
              realM (t.loseInfluence r).2) + ↑e.killed := by abel
        _ = ↑e.deck + allHands (e.players.set e.activePlayer
              (p.loseCoins 7).1) + ↑e.killed := by rw [hlose]
        _ = ↑e.deck + allHands e.players + ↑e.killed := by rw [hsame]
    · simp [pushKilled_deck]
  case assassinate target =>
    obtain ⟨p, hp, t, ht, rfl⟩ := h
    obtain ⟨hlt, hget⟩ := get?_some_facts hp
    obtain ⟨hlt2, hget2⟩ := get?_some_facts ht
    constructor
    · rw [pushKilled_stateCards]
      simp only [stateCards]
      have hlose := allHands_set_loseInfluence
        (e.players.set e.activePlayer (p.loseCoins 3).1) target r
        (by simpa using hlt2)
      rw [hget2] at hlose
      have hsame : allHands (e.players.set e.activePlayer (p.loseCoins 3).1) =
          allHands e.players :=
        allHands_set_samehand _ _ _ hlt (by rw [hget, handCards_loseCoins])
      calc ↑e.deck + allHands ((e.players.set e.activePlayer
            (p.loseCoins 3).1).set target (t.loseInfluence r).1) + ↑e.killed +
          realM (t.loseInfluence r).2
          = ↑e.deck + (allHands ((e.players.set e.activePlayer
              (p.loseCoins 3).1).set target (t.loseInfluence r).1) +
              realM (t.loseInfluence r).2) + ↑e.killed := by abel
        _ = ↑e.deck + allHands (e.players.set e.activePlayer
              (p.loseCoins 3).1) + ↑e.killed := by rw [hlose]
        _ = ↑e.deck + allHands e.players + ↑e.killed := by rw [hsame]
    · simp [pushKilled_deck]
  case steal target =>
    obtain ⟨t, ht, p, hp, rfl⟩ := h
    obtain ⟨hlt, hget⟩ := get?_some_facts ht
    obtain ⟨hlt2, hget2⟩ := get?_some_facts hp
    refine ⟨?_, rfl⟩
    simp only [stateCards]
    rw [allHands_set_samehand _ _ _ (by simpa using hlt2) (by rw [hget2]; rfl)]
    rw [allHands_set_samehand _ _ _ hlt (by rw [hget, handCards_loseCoins])]

theorem rotateActivePlayer_stateCards (e : Engine) :
    stateCards (e.rotateActivePlayer) = stateCards e := by
  unfold Engine.rotateActivePlayer; split <;> rfl

theorem rotateActivePlayer_deck (e : Engine) :
    (e.rotateActivePlayer).deck = e.deck := by
  unfold Engine.rotateActivePlayer; split <;> rfl
/-- One completed `turn` preserves the conservation invariant. -/
theorem turn_conservation (e : Engine) (o : Oracle) (e' : Engine)
    (r : Option Nat) (hinv : ConservationInv e)
    (h : e.turn o = Option.some (e', r)) : ConservationInv e' := by
  obtain ⟨hstate, hdeck⟩ := hinv
  simp only [Engine.turn] at h
  split at h
  · simp at h
  · split at h
    · simp at h
    · rename_i hactive scr2 action haction
      split at h
      · simp at h
      · rename_i e4 he4
        simp only [Option.some.injEq, Prod.mk.injEq] at h
        obtain ⟨he', hr⟩ := h
        subst he'
        have h1state : stateCards (Engine.mk e.deck (e.players.map (fun p : Player => p.computeHands e.killed)) e.killed e.activePlayer) =
            stateCards e := by
          simp only [stateCards, allHands_map_computeHands]
        have hact1 := (get?_some_facts hactive).1
        have hcr := challengeResolve_conservation
          (Engine.mk e.deck (e.players.map (fun p : Player => p.computeHands e.killed)) e.killed e.activePlayer)
          (claimedCard action) o.r1 (by simpa using hact1) (by simpa using hdeck)
        have hbp := blockPhase_conservation
          (((Engine.mk e.deck (e.players.map (fun p : Player => p.computeHands e.killed)) e.killed e.activePlayer).challengeResolve
              (claimedCard action) o.r1).1)
          (((Engine.mk e.deck (e.players.map (fun p : Player => p.computeHands e.killed)) e.killed e.activePlayer).challengeResolve
              (claimedCard action) o.r1).2) action o.r2 hcr.2
        have hchain : stateCards (((((Engine.mk e.deck (e.players.map (fun p : Player => p.computeHands e.killed)) e.killed e.activePlayer).challengeResolve
              (claimedCard action) o.r1).1).blockPhase
            (((Engine.mk e.deck (e.players.map (fun p : Player => p.computeHands e.killed)) e.killed e.activePlayer).challengeResolve (claimedCard action) o.r1).2)
            action o.r2).1) = stateCards e := by
          rw [hbp.1, hcr.1, h1state]
        split at he4
        · simp only [Option.some.injEq] at he4
          subst he4
          constructor
          · rw [rotateActivePlayer_stateCards, hchain]
            exact hstate
          · rw [rotateActivePlayer_deck]
            exact hbp.2
        · have hcomp := completeAction_conservation he4
          constructor
          · rw [rotateActivePlayer_stateCards, hcomp.1, hchain]
            exact hstate
          · rw [rotateActivePlayer_deck, hcomp.2]
            exact hbp.2

/-- Dealing two cards per player off the deck prefix conserves the multiset:
what lands in the dealt hands plus the remaining suffix is exactly the
original deck segment. -/
theorem deal_allHands :
    ∀ (ps : List Player) (deck : List Card) (k : Nat),
      2 * (k + ps.length) ≤ deck.length → deck.count Card.none = 0 →
      allHands ((List.enumFrom k ps).map fun ip =>
        (ip.2.deal (deck.getD (2 * ip.1) Card.none,
          deck.getD (2 * ip.1 + 1) Card.none)).computeHands []) +
        ↑(deck.drop (2 * (k + ps.length))) =
      (↑(deck.drop (2 * k)) : Multiset Card) := by
  intro ps
  induction ps with
  | nil =>
    intro deck k _ _
    simp [allHands, List.enumFrom]
  | cons p ps ih =>
    intro deck k hlen hnone
    have hk1 : 2 * k + 1 < deck.length := by
      simp only [List.length_cons] at hlen; omega
    have hk0 : 2 * k < deck.length := by omega
    have ha : deck.getD (2 * k) Card.none ∈ deck := by
      rw [List.getD_eq_getElem deck Card.none hk0]
      exact List.getElem_mem hk0
    have hb : deck.getD (2 * k + 1) Card.none ∈ deck := by
      rw [List.getD_eq_getElem deck Card.none hk1]
      exact List.getElem_mem hk1
    have hnotmem : Card.none ∉ deck := by
      rw [← List.count_eq_zero]; exact hnone
    have ha' : deck.getD (2 * k) Card.none ≠ Card.none := by
      intro hc; rw [hc] at ha; exact hnotmem ha
    have hb' : deck.getD (2 * k + 1) Card.none ≠ Card.none := by
      intro hc; rw [hc] at hb; exact hnotmem hb
    have hih := ih deck (k + 1) (by simp only [List.length_cons] at hlen; omega)
      hnone
    have hsplit : (↑(deck.drop (2 * k)) : Multiset Card) =
        {deck.getD (2 * k) Card.none} + ({deck.getD (2 * k + 1) Card.none} +
          ↑(deck.drop (2 * (k + 1)))) := by
      rw [List.drop_eq_getElem_cons hk0, List.drop_eq_getElem_cons hk1]
      show ((deck[2 * k] :: deck[2 * k + 1] :: deck.drop (2 * k + 1 + 1) :
        List Card) : Multiset Card) = _
      rw [List.getD_eq_getElem deck Card.none hk0,
        List.getD_eq_getElem deck Card.none hk1]
      have h22 : 2 * (k + 1) = 2 * k + 1 + 1 := by ring
      rw [h22]
      simp [Multiset.cons_coe]
    simp only [List.enumFrom, List.map_cons, allHands_cons,
      handCards_computeHands]
    have hhand : handCards (p.deal (deck.getD (2 * k) Card.none,
        deck.getD (2 * k + 1) Card.none)) =
        {deck.getD (2 * k) Card.none} + {deck.getD (2 * k + 1) Card.none} := by
      simp only [handCards, Player.deal, realM]
      rw [if_neg ha', if_neg hb']
    rw [hhand]
    have harr : 2 * (k + (p :: ps).length) = 2 * ((k + 1) + ps.length) := by
      simp only [List.length_cons]; ring
    rw [harr]
    calc {deck.getD (2 * k) Card.none} + {deck.getD (2 * k + 1) Card.none} +
        allHands ((List.enumFrom (k + 1) ps).map fun ip =>
          (ip.2.deal (deck.getD (2 * ip.1) Card.none,
            deck.getD (2 * ip.1 + 1) Card.none)).computeHands []) +
        ↑(deck.drop (2 * ((k + 1) + ps.length)))
        = {deck.getD (2 * k) Card.none} + ({deck.getD (2 * k + 1) Card.none} +
            (allHands ((List.enumFrom (k + 1) ps).map fun ip =>
              (ip.2.deal (deck.getD (2 * ip.1) Card.none,
                deck.getD (2 * ip.1 + 1) Card.none)).computeHands []) +
              ↑(deck.drop (2 * ((k + 1) + ps.length))))) := by abel
      _ = {deck.getD (2 * k) Card.none} + ({deck.getD (2 * k + 1) Card.none} +
            ↑(deck.drop (2 * (k + 1)))) := by rw [hih]
      _ = ↑(deck.drop (2 * k)) := hsplit.symm

/-- A freshly constructed engine holds exactly the cards of the deck it was
given, and its deck stays sentinel-free. -/
theorem new_conservation (ps : List Player) (deck : List Card) (e : Engine)
    (hnone : deck.count Card.none = 0)
    (h : Engine.new ps deck = Option.some e) :
    stateCards e = (deck : Multiset Card) ∧ e.deck.count Card.none = 0 := by
  unfold Engine.new at h
  split at h
  · rename_i hlen
    simp only [Option.some.injEq] at h
    subst h
    constructor
    · show ↑(deck.drop (2 * ps.length)) + allHands (ps.enum.map _) +
        ((([] : List Card)) : Multiset Card) = (deck : Multiset Card)
      have hdeal := deal_allHands ps deck 0 (by omega) hnone
      simp only [Nat.zero_add, Nat.mul_zero, List.drop_zero] at hdeal
      show ↑(deck.drop (2 * ps.length)) +
        allHands ((List.enumFrom 0 ps).map _) + _ = _
      rw [← hdeal]
      simp only [Multiset.coe_nil]
      abel
    · have hsub := (List.drop_sublist (2 * ps.length) deck).count_le Card.none
      simp only at hsub ⊢
      omega
  · simp at h

/-- Claim C6: Conservation: a freshly constructed engine (dealt from any
permutation of the fixed 15-card deck) satisfies the invariant that deck ∪
non-sentinel hand cards ∪ kill-ledger equals the 15-card universe, and every
completed `turn` preserves that invariant — so it holds in every reachable
state. -/
theorem c6_conservation :
    (∀ (ps : List Player) (deck : List Card) (e : Engine),
      deck.Perm fullDeckList → Engine.new ps deck = Option.some e →
        ConservationInv e) ∧
    (∀ (e : Engine) (o : Oracle) (e' : Engine) (r : Option Nat),
      ConservationInv e → e.turn o = Option.some (e', r) →
        ConservationInv e') := by
  constructor
  · intro ps deck e hperm hnew
    have hnone : deck.count Card.none = 0 := by
      rw [List.Perm.count_eq hperm]
      decide
    obtain ⟨hstate, hdeck⟩ := new_conservation ps deck e hnone hnew
    refine ⟨?_, hdeck⟩
    rw [hstate]
    exact Multiset.coe_eq_coe.mpr hperm
  · exact turn_conservation
/-- Fixture: two fresh 2-player seats for a conservation witness. -/
def psW : List Player :=
  [{ id := 0, hand := (Card.none, Card.none), coins := 2, liarCutoff := 0,
     lyingCutoff := 2, utilities := zeroUtils, opponents := 1,
     perceivedHands := [] },
   { id := 1, hand := (Card.none, Card.none), coins := 2, liarCutoff := 0,
     lyingCutoff := 2, utilities := zeroUtils, opponents := 1,
     perceivedHands := [] }]

/-- The engine dealt from the unshuffled full deck for the two seats. -/
def eW : Engine := (Engine.new psW fullDeckList).getD ⟨[], [], [], 0⟩

/-- The state after one turn of `eW` under the all-zero oracle. -/
def eW2 : Engine :=
  ((eW.turn ⟨0, false, false, false⟩).getD (⟨[], [], [], 0⟩, Option.none)).1

/-- The winner signal of that turn. -/
def rW : Option Nat :=
  ((eW.turn ⟨0, false, false, false⟩).getD (⟨[], [], [], 0⟩, Option.none)).2

/-- Claim C6 witness: the freshly dealt 2-player engine satisfies the
conservation invariant, and it still holds after a concrete turn. -/
theorem c6_witness :
    Engine.new psW fullDeckList = Option.some eW ∧ ConservationInv eW ∧
      eW.turn ⟨0, false, false, false⟩ = Option.some (eW2, rW) ∧
      ConservationInv eW2 := by
  have h1 : Engine.new psW fullDeckList = Option.some eW :=
    of_decide_eq_true (by with_unfolding_all rfl)
  have h2 := c6_conservation.1 psW fullDeckList eW (List.Perm.refl _) h1
  have h3 : eW.turn ⟨0, false, false, false⟩ = Option.some (eW2, rW) :=
    of_decide_eq_true (by with_unfolding_all rfl)
  exact ⟨h1, h2, h3, c6_conservation.2 eW ⟨0, false, false, false⟩ eW2 rW h2 h3⟩

end Contessa
